import Mathlib

/-!
Verification development for `django_splunk_analytics`, a change-data-capture
job that scans a simple-history version store, classifies entity ids into
add / update / delete actions, computes per-entity aggregates over the full
version history, normalizes field values and emits one serialized record per
line, tracking progress in a checkpoint row (`AnalyticsModelTracker`) and a
processed-entity ledger (`AnalyticsChanges`).

The embedding below mirrors `data_model.py` and `models.py`:
timestamps are modelled as integers (seconds), Python floats as exact
rationals, the Django querysets as explicit lists, and the Splunk backend
as a pure report of the batches submitted to it.  Exceptions raised by the
Python code are modelled with `Except` / `Option` results.
-/

namespace DjangoSplunkAnalytics

/-- One row of the simple-history table backing the collector's
`historical_model` queryset: `(id, history_date, history_type)` as used by
`get_historical_change_delete_pks` and `get_historical_attributes`.
`history_type` is the simple-history tag, `"-"` marking a deletion. -/
structure HistoryRecord where
  id : Nat
  history_date : Int
  history_type : String
deriving DecidableEq

/-- The `AnalyticsModelTracker` row for the collector's content type:
`last_updated` is the watermark, `state` the (small-integer) lock state. -/
structure Tracker where
  last_updated : Int
  state : Int
deriving DecidableEq

/-- The database as seen by the collector: the version store (read-only),
the ids present in the live model table (`model.objects`), the tracker row
(if it exists) and the `AnalyticsChanges` ledger rows `(object_id,
last_updated)` for the collector's content type. -/
structure DB where
  history : List HistoryRecord
  current : List Nat
  tracker : Option Tracker
  ledger : List (Nat × Int)
deriving DecidableEq

/-- Collector configuration and attributes fixed by `__init__`:
`update_pks` is the instance attribute initialized to `[]` (it is never
reassigned anywhere in the source; `analyze` only binds locals), and
`use_file` tells whether `output_file` is set. -/
structure Collector where
  reset : Bool
  max_count : Option Nat
  skip_locks : Bool
  update_pks : List Nat
  use_file : Bool

/-- The queryset `historical_changes` of `get_historical_change_delete_pks`
(data_model.py:124): all version records newer than the watermark. -/
def windowOf (history : List HistoryRecord) (lower : Int) : List HistoryRecord :=
  history.filter (fun r => lower < r.history_date)

/-- `historical_deletes` (data_model.py:125-126): deduplicated ids of the
window's delete-tagged records. -/
def deletePksOf (history : List HistoryRecord) (lower : Int) : List Nat :=
  (((windowOf history lower).filter (fun r => r.history_type = "-")).map
    (fun r => r.id)).dedup

/-- `historical_changes` ids (data_model.py:128-129): deduplicated ids of the
window's records that are not delete-tagged and whose id has no delete in
the window. -/
def changePksOf (history : List HistoryRecord) (lower : Int) : List Nat :=
  (((windowOf history lower).filter
      (fun r => r.history_type ≠ "-" ∧ r.id ∉ deletePksOf history lower)).map
    (fun r => r.id)).dedup

/-- `get_historical_change_delete_pks` (data_model.py:121-131). -/
def get_historical_change_delete_pks (history : List HistoryRecord)
    (lower : Int) : List Nat × List Nat :=
  (changePksOf history lower, deletePksOf history lower)

/-- `get_accounted_pks` (data_model.py:133-134): the object ids recorded in
the `AnalyticsChanges` ledger. -/
def get_accounted_pks (ledger : List (Nat × Int)) : List Nat :=
  ledger.map (fun e => e.1)

/-- `delete_pks` of `get_actions` (data_model.py:164):
`set(accounted_pks).intersection(set(historical_delete_pks))`. -/
def delete_pks_of (history : List HistoryRecord) (ledger : List (Nat × Int))
    (lower : Int) : List Nat :=
  ((get_accounted_pks ledger).filter (fun i => i ∈ deletePksOf history lower)).dedup

/-- `update_pks` of `get_actions` (data_model.py:165):
`set(accounted_pks).intersection(set(historical_change_pks))`. -/
def update_pks_of (history : List HistoryRecord) (ledger : List (Nat × Int))
    (lower : Int) : List Nat :=
  ((get_accounted_pks ledger).filter (fun i => i ∈ changePksOf history lower)).dedup

/-- `add_pks` of `get_actions` (data_model.py:166):
`set(historical_change_pks) - set(self.update_pks)`.  Note the source uses
the instance attribute `self.update_pks` (always `[]`), not the local
`update_pks` bound on the line above; the embedding keeps that behaviour. -/
def add_pks_of (c : Collector) (history : List HistoryRecord) (lower : Int) :
    List Nat :=
  (changePksOf history lower).filter (fun i => i ∉ c.update_pks)

/-- `get_actions` (data_model.py:158-171). -/
def get_actions (c : Collector) (history : List HistoryRecord)
    (ledger : List (Nat × Int)) (lower : Int) :
    List Nat × List Nat × List Nat :=
  (add_pks_of c history lower, update_pks_of history ledger lower,
   delete_pks_of history ledger lower)

/-- A collector constructed with the defaults of `__init__` (no reset, no
`max_count`, `skip_locks = True`, `self.update_pks = []`, stdout sink). -/
def defaultCollector : Collector := ⟨false, none, true, [], false⟩

/-- C1: on a ledger containing id 1 and a single non-delete version record
for id 1 newer than the watermark, `get_actions` returns id 1 both as an
update and as an add: the subtraction against the always-empty
`self.update_pks` makes `add_pks = historical_change_pks`, instead of the
claimed `changed_ids \ processed_ids = ∅`. -/
theorem C1_code_eval :
    get_actions defaultCollector [⟨1, 5, "~"⟩] [(1, 0)] 0 = ([1], [1], []) := by
  decide

/-- C2: with ledger ids 1 and 2, a change record for id 1 and a delete record
for id 2 in the window, `get_actions` returns id 1 in both `add_pks` and
`update_pks`, violating the at-most-one-action invariant (the delete-wins
part does hold: id 2 appears only in `delete_pks`). -/
theorem C2_code_eval :
    get_actions defaultCollector [⟨1, 5, "~"⟩, ⟨2, 6, "-"⟩] [(1, 0), (2, 0)] 0 =
      ([1], [1], [2]) := by
  decide

/-! ## Value normalization (`dump_result`, data_model.py:230-257)

Python values reaching `clean_value` are strings, ints, floats, datetimes,
lists/tuples or `None`; floats are modelled as exact rationals and datetimes
as integer timestamps. -/

/-- A JSON-able field value as handled by `dump_result`. -/
inductive Value where
  | str : String → Value
  | int : Int → Value
  | num : ℚ → Value
  | time : Int → Value
  | list : List Value → Value
  | null : Value

/-- Python's `value.startswith("00")`. -/
def startsWith00 (s : String) : Bool :=
  match s.data with
  | '0' :: '0' :: _ => true
  | _ => false

/-- A nonempty run of ASCII digits, `[0-9]+`. -/
def digitsCore (l : List Char) : Bool :=
  !l.isEmpty && l.all (fun c => c.isDigit)

/-- Python's `re` anchor `$` also matches just before one final newline; the
core pattern of `INTS`/`NUMS` cannot itself contain a newline, so
`INTS.search` / `NUMS.search` on `s` is a full match on `s` with at most one
trailing newline stripped. -/
def stripFinalNewline (l : List Char) : List Char :=
  if l.getLast? = some '\n' then l.dropLast else l

/-- Body of `INTS = re.compile(r"^-?[0-9]+$")` after the anchors. -/
def intsCore : List Char → Bool
  | '-' :: rest => digitsCore rest
  | l => digitsCore l

/-- `INTS.search(value)` succeeds (data_model.py:40). -/
def matchINTS (s : String) : Bool :=
  intsCore (stripFinalNewline s.data)

/-- Optional exponent part `(?:[eE][+-]?\d+)?` followed by end of input. -/
def expCore : List Char → Bool
  | [] => true
  | c :: r =>
    if c = 'e' ∨ c = 'E' then
      match r with
      | '+' :: r2 => digitsCore r2
      | '-' :: r2 => digitsCore r2
      | r2 => digitsCore r2
    else false

/-- `\d+(?:\.\d+)?(?:[eE][+-]?\d+)?` followed by end of input. -/
def numsAfterSign (l : List Char) : Bool :=
  let ip := l.takeWhile (fun c => c.isDigit)
  let rest := l.dropWhile (fun c => c.isDigit)
  if ip.isEmpty then false
  else
    match rest with
    | '.' :: r2 =>
      let fp := r2.takeWhile (fun c => c.isDigit)
      let r3 := r2.dropWhile (fun c => c.isDigit)
      if fp.isEmpty then false else expCore r3
    | r => expCore r

/-- Body of `NUMS = re.compile(r"^[+-]?\d+(?:\.\d+)?(?:[eE][+-]?\d+)?$")`. -/
def numsCore : List Char → Bool
  | '+' :: rest => numsAfterSign rest
  | '-' :: rest => numsAfterSign rest
  | l => numsAfterSign l

/-- `NUMS.search(value)` succeeds (data_model.py:41). -/
def matchNUMS (s : String) : Bool :=
  numsCore (stripFinalNewline s.data)

/-- Numeric value of a digit run. -/
def digitsVal (l : List Char) : Nat :=
  l.foldl (fun n c => 10 * n + (c.toNat - 48)) 0

/-- Python's `int(value)` on a string accepted by `INTS` (a trailing newline
is whitespace, which `int` strips). -/
def intOf (s : String) : Int :=
  match stripFinalNewline s.data with
  | '-' :: rest => -(digitsVal rest : Int)
  | l => (digitsVal l : Int)

/-- Exact value of Python's `float(value)` on a string accepted by `NUMS`,
as a rational: `sign * (intpart.fracpart) * 10^exponent`. -/
def numOfCore (l : List Char) : ℚ :=
  let sl : ℚ × List Char :=
    match l with
    | '+' :: r => (1, r)
    | '-' :: r => (-1, r)
    | l => (1, l)
  let ip := sl.2.takeWhile (fun c => c.isDigit)
  let l1 := sl.2.dropWhile (fun c => c.isDigit)
  let fl : List Char × List Char :=
    match l1 with
    | '.' :: r =>
      (r.takeWhile (fun c => c.isDigit), r.dropWhile (fun c => c.isDigit))
    | l1 => ([], l1)
  let ex : Int :=
    match fl.2 with
    | 'e' :: r | 'E' :: r =>
      match r with
      | '+' :: d => (digitsVal d : Int)
      | '-' :: d => -(digitsVal d : Int)
      | d => (digitsVal d : Int)
    | _ => 0
  sl.1 * ((digitsVal ip : ℚ) + (digitsVal fl.1 : ℚ) / (10 : ℚ) ^ fl.1.length) *
    (10 : ℚ) ^ ex

/-- `float(value)` for a `NUMS`-matched string. -/
def numOf (s : String) : ℚ :=
  numOfCore (stripFinalNewline s.data)

/-- Is this value Python's `None`? (`dump_result` keeps a field only
`if value is not None`.) -/
def Value.isNull : Value → Bool
  | .null => true
  | _ => false

mutual

/-- `clean_value` inside `dump_result` (data_model.py:234-249): strings
beginning `"00"` pass through, `INTS` matches become ints, `NUMS` matches
become floats, the empty string becomes `None`; empty lists/tuples become
`None`, nonempty ones are cleaned element-wise; everything else passes
through. -/
def clean_value : Value → Value
  | .str s =>
    if startsWith00 s then .str s
    else if matchINTS s then .int (intOf s)
    else if matchNUMS s then .num (numOf s)
    else if s.length = 0 then .null
    else .str s
  | .list l => if l.isEmpty then .null else .list (clean_list l)
  | v => v

/-- Element-wise `clean_value` over a list (`[clean_value(v) for v in value]`). -/
def clean_list : List Value → List Value
  | [] => []
  | v :: vs => clean_value v :: clean_list vs

end

/-- `OrderedDict` assignment `data[field] = value`: replaces the value in
place if the key exists, else appends. -/
def odSet (d : List (String × Value)) (k : String) (v : Value) :
    List (String × Value) :=
  if d.any (fun p => p.1 = k) then
    d.map (fun p => if p.1 = k then (k, v) else p)
  else d ++ [(k, v)]

/-- Python's `item.get(key)`: `None` when the key is absent. -/
def lookupField (item : List (String × Value)) (k : String) : Value :=
  match item.lookup k with
  | some v => v
  | none => .null

/-- `dump_result` (data_model.py:230-257) up to JSON text rendering: builds
the ordered payload starting with `timestamp` (the collector's
`splunk_timestamp_field`) and `pk`, then for every item field applies the
`field_map` rename and `clean_value`, keeping the field only when the cleaned
value is not `None`.  `json.dumps(..., sort_keys=False)` preserves exactly
this key order, so the payload is modelled as the ordered association list
itself. -/
def dump_result (field_map : List (String × String)) (ts_field : String)
    (item : List (String × Value)) : List (String × Value) :=
  let data : List (String × Value) :=
    [("timestamp", lookupField item ts_field), ("pk", lookupField item "pk")]
  item.foldl
    (fun data fv =>
      let field := match field_map.lookup fv.1 with
        | some f => f
        | none => fv.1
      let value := clean_value fv.2
      if value.isNull then data else odSet data field value)
    data

/-- `clean_list` is element-wise `clean_value`. -/
theorem clean_list_eq_map (l : List Value) : clean_list l = l.map clean_value := by
  induction l with
  | nil => rfl
  | cons v vs ih => simp [clean_list, ih]

/-- C10: every string beginning with `"00"` is exempt from numeric coercion
and passes through `clean_value` unchanged. -/
theorem C10_zero_prefix (s : String) (h : startsWith00 s = true) :
    clean_value (Value.str s) = Value.str s := by
  simp [clean_value, h]

/-- C10 witness: `"007"` matches the integer pattern yet stays the string
`"007"`. -/
theorem C10_zero_prefix_witness :
    startsWith00 "007" = true ∧ clean_value (Value.str "007") = Value.str "007" :=
  ⟨rfl, C10_zero_prefix "007" rfl⟩

/-- C7 counterexample: `"007"` matches the integer pattern `^-?[0-9]+$` but is
not coerced to an integer: the `"00"` exemption fires first and it remains a
string. -/
theorem C7_counterexample :
    matchINTS "007" = true ∧ clean_value (Value.str "007") = Value.str "007" ∧
      Value.str "007" ≠ Value.int 7 :=
  ⟨rfl, rfl, fun h => Value.noConfusion h⟩

/-- The round-trip example item of the claim. -/
def exampleItem : List (String × Value) :=
  [("a", Value.str "42"), ("b", Value.str "3.14"), ("c", Value.str "1e5"),
   ("d", Value.str ""), ("e", Value.list [Value.str "1", Value.str "2"])]

/-- C7 (amended): `clean_value` coerces integer-pattern strings to integers
and decimal/exponential-pattern strings to floats except for strings
beginning `"00"`, maps the empty string and the empty list to `None` (so the
field is omitted), cleans nonempty lists element-wise and leaves non-matching
strings unchanged; serializing the example item yields `a = 42`, `b = 3.14`,
`c = 100000.0`, `d` absent and `e = [1, 2]`. -/
theorem C7_value_coercion (s : String) :
    (startsWith00 s = false → matchINTS s = true →
      clean_value (Value.str s) = Value.int (intOf s)) ∧
    (startsWith00 s = false → matchINTS s = false → matchNUMS s = true →
      clean_value (Value.str s) = Value.num (numOf s)) ∧
    (startsWith00 s = false → matchINTS s = false → matchNUMS s = false →
      s.length ≠ 0 → clean_value (Value.str s) = Value.str s) ∧
    clean_value (Value.str "") = Value.null ∧
    clean_value (Value.list []) = Value.null ∧
    (∀ l : List Value, l ≠ [] →
      clean_value (Value.list l) = Value.list (l.map clean_value)) ∧
    dump_result [] "historical_last_change_date" exampleItem =
      [("timestamp", Value.null), ("pk", Value.null), ("a", Value.int 42),
       ("b", Value.num (157 / 50)), ("c", Value.num 100000),
       ("e", Value.list [Value.int 1, Value.int 2])] := by
  refine ⟨fun h0 h1 => ?_, fun h0 h1 h2 => ?_, fun h0 h1 h2 h3 => ?_, by rfl,
    by rfl, fun l hl => ?_, ?_⟩
  · simp [clean_value, h0, h1]
  · simp [clean_value, h0, h1, h2]
  · simp [clean_value, h0, h1, h2, h3]
  · simp [clean_value, List.isEmpty_iff, hl, clean_list_eq_map]
  · have hb : numOf "3.14" = 157 / 50 := by
      show (1 : ℚ) * (((3 : ℕ) : ℚ) + ((14 : ℕ) : ℚ) / (10 : ℚ) ^ (2 : ℕ)) *
          (10 : ℚ) ^ (0 : ℤ) = 157 / 50
      norm_num
    have hc : numOf "1e5" = 100000 := by
      show (1 : ℚ) * (((1 : ℕ) : ℚ) + ((0 : ℕ) : ℚ) / (10 : ℚ) ^ (0 : ℕ)) *
          (10 : ℚ) ^ (((5 : ℕ) : ℤ)) = 100000
      norm_num
    have h0 : dump_result [] "historical_last_change_date" exampleItem =
        [("timestamp", Value.null), ("pk", Value.null),
         ("a", Value.int (intOf "42")), ("b", Value.num (numOf "3.14")),
         ("c", Value.num (numOf "1e5")),
         ("e", Value.list [Value.int (intOf "1"), Value.int (intOf "2")])] := rfl
    rw [h0, hb, hc]
    rfl

/-- C7 witness: the integer clause of the amended claim at `"42"`. -/
theorem C7_value_coercion_witness :
    clean_value (Value.str "42") = Value.int (intOf "42") :=
  (C7_value_coercion "42").1 rfl rfl

/-! ## Aggregates over the full version history
(`get_historical_attributes`, data_model.py:208-228) -/

/-- The aggregate row built per entity id. -/
structure HistAttrs where
  historical_create_date : Int
  historical_last_change_date : Int
  historical_total_changes : Nat
  historical_delta_days : ℚ
  historical_average_days : ℚ
deriving DecidableEq

/-- One iteration of the `for pk, hist_date, hist_type in data` loop: the
first record of an id initializes create/last to its date and the counter to
one; later records update the running min, max and count. -/
def histStep (acc : Option (Int × Int × Nat)) (r : HistoryRecord) :
    Option (Int × Int × Nat) :=
  match acc with
  | none => some (r.history_date, r.history_date, 1)
  | some x => some (min x.1 r.history_date, max x.2.1 r.history_date, x.2.2 + 1)

/-- The loop of `get_historical_attributes` over one id's records. -/
def histFold (l : List HistoryRecord) : Option (Int × Int × Nat) :=
  l.foldl histStep none

/-- `get_historical_attributes` (data_model.py:208-228) for a single id: the
source builds the dict for a set of pks from
`historical_model.filter(id__in=pks)`; the entry of one `pk` depends only on
the records with that id, modelled here directly.  `delta_days` is
`(last - create).total_seconds() / 60.0 / 60.0 / 24.0` and `average_days`
divides it by the record count. -/
def get_historical_attributes (history : List HistoryRecord) (pk : Nat) :
    Option HistAttrs :=
  match histFold (history.filter (fun r => r.id = pk)) with
  | none => none
  | some x =>
    let delta_days : ℚ := ((x.2.1 - x.1 : Int) : ℚ) / 60 / 60 / 24
    some ⟨x.1, x.2.1, x.2.2, delta_days, delta_days / (x.2.2 : ℚ)⟩

theorem le_foldl_max (xs : List Int) (a : Int) : a ≤ xs.foldl max a := by
  induction xs generalizing a with
  | nil => exact le_refl a
  | cons x xs ih => exact le_trans (le_max_left a x) (ih (max a x))

theorem mem_le_foldl_max (xs : List Int) (a : Int) :
    ∀ b ∈ xs, b ≤ xs.foldl max a := by
  induction xs generalizing a with
  | nil => intro b hb; cases hb
  | cons x xs ih =>
    intro b hb
    rcases List.mem_cons.mp hb with rfl | hb
    · exact le_trans (le_max_right a b) (le_foldl_max xs (max a b))
    · exact ih (max a x) b hb

theorem foldl_max_mem (xs : List Int) (a : Int) :
    xs.foldl max a = a ∨ xs.foldl max a ∈ xs := by
  induction xs generalizing a with
  | nil => exact Or.inl rfl
  | cons x xs ih =>
    rcases ih (max a x) with h | h
    · rcases max_choice a x with hax | hax
      · exact Or.inl (by rw [List.foldl_cons, h, hax])
      · exact Or.inr (by rw [List.foldl_cons, h, hax]; exact List.mem_cons_self x xs)
    · exact Or.inr (List.mem_cons_of_mem x h)

theorem foldl_min_le (xs : List Int) (a : Int) : xs.foldl min a ≤ a := by
  induction xs generalizing a with
  | nil => exact le_refl a
  | cons x xs ih => exact le_trans (ih (min a x)) (min_le_left a x)

theorem foldl_min_le_mem (xs : List Int) (a : Int) :
    ∀ b ∈ xs, xs.foldl min a ≤ b := by
  induction xs generalizing a with
  | nil => intro b hb; cases hb
  | cons x xs ih =>
    intro b hb
    rcases List.mem_cons.mp hb with rfl | hb
    · exact le_trans (foldl_min_le xs (min a b)) (min_le_right a b)
    · exact ih (min a x) b hb

theorem foldl_min_mem (xs : List Int) (a : Int) :
    xs.foldl min a = a ∨ xs.foldl min a ∈ xs := by
  induction xs generalizing a with
  | nil => exact Or.inl rfl
  | cons x xs ih =>
    rcases ih (min a x) with h | h
    · rcases min_choice a x with hax | hax
      · exact Or.inl (by rw [List.foldl_cons, h, hax])
      · exact Or.inr (by rw [List.foldl_cons, h, hax]; exact List.mem_cons_self x xs)
    · exact Or.inr (List.mem_cons_of_mem x h)

/-- Running the loop from an initialized accumulator computes the running
min, max and count. -/
theorem histFold_go (xs : List HistoryRecord) (c m : Int) (n : Nat) :
    xs.foldl histStep (some (c, m, n)) =
      some ((xs.map (fun r => r.history_date)).foldl min c,
            (xs.map (fun r => r.history_date)).foldl max m, n + xs.length) := by
  induction xs generalizing c m n with
  | nil => rfl
  | cons x xs ih =>
    simp only [List.foldl_cons, List.map_cons, histStep, ih, List.length_cons]
    exact congrArg some (by rw [Nat.add_assoc, Nat.add_comm 1 xs.length])

/-- Closed form of the aggregate when the id has at least one record. -/
theorem get_historical_attributes_eq (history : List HistoryRecord) (pk : Nat)
    (x : HistoryRecord) (xs : List HistoryRecord)
    (hl : history.filter (fun r => r.id = pk) = x :: xs) :
    get_historical_attributes history pk = some
      ⟨(xs.map (fun r => r.history_date)).foldl min x.history_date,
       (xs.map (fun r => r.history_date)).foldl max x.history_date,
       1 + xs.length,
       (((xs.map (fun r => r.history_date)).foldl max x.history_date -
          (xs.map (fun r => r.history_date)).foldl min x.history_date : Int) : ℚ) /
         60 / 60 / 24,
       (((xs.map (fun r => r.history_date)).foldl max x.history_date -
          (xs.map (fun r => r.history_date)).foldl min x.history_date : Int) : ℚ) /
         60 / 60 / 24 / ((1 + xs.length : Nat) : ℚ)⟩ := by
  have hfold : histFold (x :: xs) =
      some ((xs.map (fun r => r.history_date)).foldl min x.history_date,
            (xs.map (fun r => r.history_date)).foldl max x.history_date,
            1 + xs.length) := by
    show xs.foldl histStep (histStep none x) = _
    rw [show histStep none x = some (x.history_date, x.history_date, 1) from rfl,
      histFold_go]
  unfold get_historical_attributes
  rw [hl, hfold]

/-- C6: for every id with at least one version record, the aggregate has
`create` = the minimum record timestamp, `last_change` = the maximum,
`total_changes` = the record count, `delta_days` = (last − create) seconds /
86400 and `average_days` = `delta_days / total_changes`; with exactly one
record, create = last and both day figures are zero. -/
theorem C6_aggregate (history : List HistoryRecord) (pk : Nat) (dates : List Int)
    (hdates : dates = (history.filter (fun r => r.id = pk)).map
      (fun r => r.history_date))
    (hne : dates ≠ []) :
    ∃ a, get_historical_attributes history pk = some a ∧
      a.historical_create_date ∈ dates ∧
      (∀ d ∈ dates, a.historical_create_date ≤ d) ∧
      a.historical_last_change_date ∈ dates ∧
      (∀ d ∈ dates, d ≤ a.historical_last_change_date) ∧
      a.historical_total_changes = dates.length ∧
      a.historical_delta_days =
        ((a.historical_last_change_date - a.historical_create_date : Int) : ℚ) /
          86400 ∧
      a.historical_average_days =
        a.historical_delta_days / (a.historical_total_changes : ℚ) ∧
      (dates.length = 1 →
        a.historical_create_date = a.historical_last_change_date ∧
        a.historical_delta_days = 0 ∧ a.historical_average_days = 0) := by
  subst hdates
  rcases hl : history.filter (fun r => r.id = pk) with _ | ⟨x, xs⟩
  · simp [hl] at hne
  · rw [hl]
    refine ⟨_, get_historical_attributes_eq history pk x xs hl, ?_, ?_, ?_, ?_,
      ?_, ?_, ?_, ?_⟩ <;> dsimp only [List.map_cons]
    · rcases foldl_min_mem (xs.map (fun r => r.history_date)) x.history_date
        with h | h
      · rw [h]; exact List.mem_cons_self _ _
      · exact List.mem_cons_of_mem _ h
    · intro d hd
      rcases List.mem_cons.mp hd with rfl | hd
      · exact foldl_min_le _ _
      · exact foldl_min_le_mem _ _ d hd
    · rcases foldl_max_mem (xs.map (fun r => r.history_date)) x.history_date
        with h | h
      · rw [h]; exact List.mem_cons_self _ _
      · exact List.mem_cons_of_mem _ h
    · intro d hd
      rcases List.mem_cons.mp hd with rfl | hd
      · exact le_foldl_max _ _
      · exact mem_le_foldl_max _ _ d hd
    · simp [Nat.add_comm]
    · rw [div_div, div_div]
      norm_num
    · intro hlen
      have hxs : xs = [] := by
        simp only [List.length_cons, List.length_map] at hlen
        exact List.eq_nil_of_length_eq_zero (by omega)
      subst hxs
      refine ⟨rfl, ?_, ?_⟩ <;> simp

/-- C6 witness: a single version record for id 1 at time 100. -/
theorem C6_aggregate_witness :
    ∃ a, get_historical_attributes [⟨1, 100, "+"⟩] 1 = some a ∧
      a.historical_create_date ∈ [(100 : Int)] ∧
      (∀ d ∈ [(100 : Int)], a.historical_create_date ≤ d) ∧
      a.historical_last_change_date ∈ [(100 : Int)] ∧
      (∀ d ∈ [(100 : Int)], d ≤ a.historical_last_change_date) ∧
      a.historical_total_changes = [(100 : Int)].length ∧
      a.historical_delta_days =
        ((a.historical_last_change_date - a.historical_create_date : Int) : ℚ) /
          86400 ∧
      a.historical_average_days =
        a.historical_delta_days / (a.historical_total_changes : ℚ) ∧
      ([(100 : Int)].length = 1 →
        a.historical_create_date = a.historical_last_change_date ∧
        a.historical_delta_days = 0 ∧ a.historical_average_days = 0) :=
  C6_aggregate [⟨1, 100, "+"⟩] 1 [100] (by decide) (by decide)

/-! ## The run: lock, emission, unlock, analyze
(data_model.py:92-119, 173-206, 271-291)

The output sink holds one serialized payload per written line; `print` to
stdout appends, while `open(self.output_file, "w")` replaces the file's
contents.  Exceptions are modelled as `Except` / `Option` results. -/

/-- The output sink state: the file's lines and the stdout lines. -/
structure Sink where
  file : List (List (String × Value))
  stdout : List (List (String × Value))

/-- The collector-visible mutable state of one process: the database plus the
sink and the `self.locked` flag. -/
structure RunState where
  db : DB
  sink : Sink
  locked : Bool

/-- `now() - datetime.timedelta(days=365*100)` in seconds. -/
def priorDate (nowT : Int) : Int := nowT - 3153600000

/-- `lock` (data_model.py:92-111): fetch or create the tracker row; on an
existing row with `state == 0`, raise `RuntimeError("Already processing")`
unless `skip_locks`; on `reset`, clear the ledger and rewind the watermark;
then store `state = 0`.  Returns the updated state together with
`self.last_look` as saved. -/
def lock (c : Collector) (nowT : Int) (st : RunState) :
    Except String (RunState × Tracker) :=
  match st.db.tracker with
  | none =>
    let t : Tracker := ⟨priorDate nowT, 0⟩
    .ok (⟨⟨st.db.history, st.db.current, some t, st.db.ledger⟩, st.sink, true⟩, t)
  | some t0 =>
    if t0.state = 0 ∧ c.skip_locks = false then .error "Already processing"
    else
      let ledger1 := if c.reset then [] else st.db.ledger
      let lu := if c.reset then priorDate nowT else t0.last_updated
      let t : Tracker := ⟨lu, 0⟩
      .ok (⟨⟨st.db.history, st.db.current, some t, ledger1⟩, st.sink, true⟩, t)

/-- The `last_updated` of
`AnalyticsChanges.objects.filter(...).order_by('last_updated').last()`:
the greatest ledger timestamp, or `None` on an empty ledger. -/
def ledgerMax (ledger : List (Nat × Int)) : Option Int :=
  match ledger.map (fun e => e.2) with
  | [] => none
  | x :: xs => some (xs.foldl max x)

/-- `unlock` (data_model.py:113-119): writes `last_look.last_updated` =
greatest ledger `last_updated` and `last_look.state = 0` (the same value
`lock` stores while processing).  On an empty ledger `last()` is `None` and
the attribute access raises (`none` here); likewise `self.last_look` must
exist. -/
def unlock (st : RunState) : Option RunState :=
  match st.db.tracker, ledgerMax st.db.ledger with
  | some _, some m =>
    some ⟨⟨st.db.history, st.db.current, some ⟨m, 0⟩, st.db.ledger⟩, st.sink, false⟩
  | _, _ => none

/-- The five aggregate fields contributed by `get_historical_attributes` via
`get_field_methods`, in insertion order. -/
def histFields (a : HistAttrs) : List (String × Value) :=
  [("historical_create_date", Value.time a.historical_create_date),
   ("historical_last_change_date", Value.time a.historical_last_change_date),
   ("historical_total_changes", Value.int a.historical_total_changes),
   ("historical_delta_days", Value.num a.historical_delta_days),
   ("historical_average_days", Value.num a.historical_average_days)]

/-- One value row of `get_values`: the base `('pk', id)` entry from
`get_base_values` (fields are `('pk',)`) updated with the aggregate fields,
when the id has any history. -/
def itemOf (history : List HistoryRecord) (i : Nat) : List (String × Value) :=
  ("pk", Value.int (i : Int)) ::
    (match get_historical_attributes history i with
     | some a => histFields a
     | none => [])

/-- `get_values` (data_model.py:173-190): `model.objects.filter(id__in=pks)`
keeps the ids that still exist in the live table (in table order), each
merged with its aggregate fields. -/
def get_values (db : DB) (pks : List Nat) : List (List (String × Value)) :=
  (db.current.filter (fun i => i ∈ pks)).map (itemOf db.history)

/-- `item.get('pk')` as the object id of the ledger row. -/
def itemPk (item : List (String × Value)) : Nat :=
  match item.lookup "pk" with
  | some (.int i) => i.toNat
  | _ => 0

/-- `item['historical_last_change_date']`: `none` models the `KeyError` when
the aggregate fields are missing. -/
def itemTimestamp (item : List (String × Value)) : Option Int :=
  match item.lookup "historical_last_change_date" with
  | some (.time t) => some t
  | _ => none

/-- `get_or_create` + `save` on `AnalyticsChanges`: update the row's
`last_updated` if `(content_type, object_id)` exists, else insert it. -/
def upsert (ledger : List (Nat × Int)) (pk : Nat) (lu : Int) :
    List (Nat × Int) :=
  if ledger.any (fun p => p.1 = pk) then
    ledger.map (fun p => if p.1 = pk then (pk, lu) else p)
  else ledger ++ [(pk, lu)]

/-- One iteration of the `add_items` loop: serialize the item, upsert its
ledger row with `last_updated = item['historical_last_change_date']`, then
either `open(self.output_file, "w")` — replacing the whole file with this
one line — or `print` the line to stdout. -/
def add_one (c : Collector) (st : RunState) (item : List (String × Value)) :
    Option RunState :=
  let result := dump_result [] "historical_last_change_date" item
  match itemTimestamp item with
  | none => none
  | some t =>
    let ledger1 := upsert st.db.ledger (itemPk item) t
    let sink1 : Sink :=
      if c.use_file then ⟨[result], st.sink.stdout⟩
      else ⟨st.sink.file, st.sink.stdout ++ [result]⟩
    some ⟨⟨st.db.history, st.db.current, st.db.tracker, ledger1⟩, sink1, st.locked⟩

/-- The `for item in self.get_values(add_pks)` loop of `add_items`. -/
def add_items_loop (c : Collector) :
    RunState → List (List (String × Value)) → Option RunState
  | st, [] => some st
  | st, item :: rest =>
    match add_one c st item with
    | none => none
    | some st1 => add_items_loop c st1 rest

/-- `add_items` (data_model.py:192-206). -/
def add_items (c : Collector) (st : RunState) (add_pks : List Nat) :
    Option RunState :=
  add_items_loop c st (get_values st.db add_pks)

/-- `delete_pks[:self.max_count] if self.max_count else delete_pks`: `None`
and `0` are both falsy, so only a positive `max_count` truncates. -/
def truncateBatch (mc : Option Nat) (l : List Nat) : List Nat :=
  match mc with
  | none => l
  | some n => if n = 0 then l else l.take n

/-- How one `analyze` call ended. -/
inductive RunOutcome where
  | completed : RunOutcome
  | lockFailed : RunOutcome
  | crashed : RunOutcome
deriving DecidableEq

/-- What one `analyze` call did: its outcome and the two batches handed to
the pipelines (`delete_items` receives `delete_batch`; `add_items` receives
`add_batch`). -/
structure RunReport where
  outcome : RunOutcome
  add_batch : List Nat
  delete_batch : List Nat
deriving DecidableEq

/-- `analyze` (data_model.py:271-291): lock (a `RuntimeError` is caught and
ends the run), classify, submit `update_pks + delete_pks` (truncated) to the
backend's delete pipeline, emit `add_pks + update_pks` (truncated) through
`add_items`, then unlock.  `delete_items` only talks to the backend, so its
local effect is the reported batch. -/
def analyze (c : Collector) (nowT : Int) (st : RunState) :
    RunState × RunReport :=
  match lock c nowT st with
  | .error _ => (st, ⟨.lockFailed, [], []⟩)
  | .ok (st1, last_look) =>
    let acts := get_actions c st1.db.history st1.db.ledger last_look.last_updated
    let delete_batch := truncateBatch c.max_count (acts.2.1 ++ acts.2.2)
    let add_batch := truncateBatch c.max_count (acts.1 ++ acts.2.1)
    match add_items c st1 add_batch with
    | none => (st1, ⟨.crashed, add_batch, delete_batch⟩)
    | some st2 =>
      match unlock st2 with
      | none => (st2, ⟨.crashed, add_batch, delete_batch⟩)
      | some st3 => (st3, ⟨.completed, add_batch, delete_batch⟩)

/-- Detect + reconcile a second time, from the state and watermark left by a
first `analyze` run, with no records added in between. -/
def secondActions (c : Collector) (nowT : Int) (st : RunState) :
    List Nat × List Nat × List Nat :=
  let st1 := (analyze c nowT st).1
  match st1.db.tracker with
  | some t => get_actions c st1.db.history st1.db.ledger t.last_updated
  | none => ([], [], [])

/-! ## Error handling and concrete run evaluations -/

/-- C9: with the tracker row at `state = 0` (the value `lock` stores while a
run is processing) and overriding disallowed (`skip_locks = False`), `lock`
raises `RuntimeError("Already processing")` before any save, and `analyze`
catches it and returns with the whole state — tracker, ledger, sink —
untouched. -/
theorem C9_already_locked_aborts (c : Collector) (nowT : Int) (st : RunState)
    (t : Tracker) (htr : st.db.tracker = some t) (hstate : t.state = 0)
    (hov : c.skip_locks = false) :
    lock c nowT st = Except.error "Already processing" ∧
    analyze c nowT st = (st, ⟨RunOutcome.lockFailed, [], []⟩) := by
  have hl : lock c nowT st = Except.error "Already processing" := by
    simp [lock, htr, hstate, hov]
  exact ⟨hl, by rw [analyze, hl]⟩

/-- A collector with `skip_locks = False` (override disallowed), otherwise
default-configured. -/
def strictCollector : Collector := ⟨false, none, false, [], false⟩

/-- A state whose tracker row is held at `state = 0`. -/
def lockedState : RunState := ⟨⟨[], [], some ⟨5, 0⟩, []⟩, ⟨[], []⟩, false⟩

/-- C9 witness: the locked-out run at a concrete state. -/
theorem C9_already_locked_aborts_witness :
    lock strictCollector 100 lockedState = Except.error "Already processing" ∧
    analyze strictCollector 100 lockedState =
      (lockedState, ⟨RunOutcome.lockFailed, [], []⟩) :=
  C9_already_locked_aborts strictCollector 100 lockedState ⟨5, 0⟩ rfl rfl rfl

/-- C5: after `unlock`, the watermark does equal the greatest ledger
`last_updated` (5, from row `(1, 5)`), but the lock state is written as `0` —
the very value `lock` treats as "Already processing" (the model's declared
choices are 1 = Ready, 2 = In-Process) — so a subsequent acquire with
override disallowed fails: the released tracker is not `Free`. -/
theorem C5_code_eval :
    unlock ⟨⟨[], [1], some ⟨3, 1⟩, [(1, 5)]⟩, ⟨[], []⟩, true⟩ =
      some ⟨⟨[], [1], some ⟨5, 0⟩, [(1, 5)]⟩, ⟨[], []⟩, false⟩ ∧
    lock strictCollector 100 ⟨⟨[], [1], some ⟨5, 0⟩, [(1, 5)]⟩, ⟨[], []⟩, false⟩ =
      Except.error "Already processing" :=
  ⟨rfl, rfl⟩

/-- A default collector writing to a file sink. -/
def fileSinkCollector : Collector := ⟨false, none, true, [], true⟩

/-- Two live entities with one change record each, nothing processed yet. -/
def twoAddsState : RunState :=
  ⟨⟨[⟨1, 2, "~"⟩, ⟨2, 3, "~"⟩], [1, 2], some ⟨0, 1⟩, []⟩, ⟨[], []⟩, false⟩

/-- C8: a run over a file sink with two emitted adds upserts both ledger rows
with `last_updated` taken from each record's timestamp (2 and 3), but because
`add_items` reopens the file in `"w"` mode for every record, the file ends
the run holding a single line (the last record), not every emitted record. -/
theorem C8_code_eval :
    (analyze fileSinkCollector 100 twoAddsState).2 =
      ⟨RunOutcome.completed, [1, 2], []⟩ ∧
    (analyze fileSinkCollector 100 twoAddsState).1.db.ledger = [(1, 2), (2, 3)] ∧
    (analyze fileSinkCollector 100 twoAddsState).1.sink.file.length = 1 ∧
    (analyze fileSinkCollector 100 twoAddsState).1.sink.stdout = [] :=
  ⟨rfl, rfl, rfl, rfl⟩

/-- A default collector with `max_count = 1`. -/
def cappedCollector : Collector := ⟨false, some 1, true, [], false⟩

/-- Two eligible adds, the first carrying the newer change record. -/
def twoAddsNewerFirst : RunState :=
  ⟨⟨[⟨1, 10, "~"⟩, ⟨2, 5, "~"⟩], [1, 2], some ⟨0, 1⟩, []⟩, ⟨[], []⟩, false⟩

/-- C4 counterexample: with `max_count = 1` and two eligible adds, the first
run emits exactly add 1 and leaves id 2 out of the ledger — but the next run
does *not* pick id 2 up: the watermark advanced to 10, past id 2's record at
5, so the second run has an empty add batch and id 2 is never emitted. -/
theorem C4_counterexample :
    (analyze cappedCollector 100 twoAddsNewerFirst).2 =
      ⟨RunOutcome.completed, [1], []⟩ ∧
    (analyze cappedCollector 100 twoAddsNewerFirst).1.db.ledger = [(1, 10)] ∧
    (analyze cappedCollector 100
        ((analyze cappedCollector 100 twoAddsNewerFirst).1)).2 =
      ⟨RunOutcome.completed, [], []⟩ ∧
    (analyze cappedCollector 100
        ((analyze cappedCollector 100 twoAddsNewerFirst).1)).1.db.ledger =
      [(1, 10)] :=
  ⟨rfl, rfl, rfl, rfl⟩

/-- A processed entity (id 1, ledger timestamp 1) deleted at time 5, plus a
fresh change to id 2 at time 3. -/
def deleteAboveWatermark : RunState :=
  ⟨⟨[⟨2, 3, "~"⟩, ⟨1, 5, "-"⟩], [2], some ⟨0, 1⟩, [(1, 1)]⟩, ⟨[], []⟩, false⟩

/-- C3 counterexample: the first full pass completes (emitting id 2 and
submitting the delete of id 1), yet detect + reconcile run again with no new
version records still returns delete set `[1]`: the released watermark is the
greatest ledger `last_updated` (3), which a delete record at 5 exceeds, since
deletions never advance the ledger. -/
theorem C3_counterexample :
    (analyze defaultCollector 100 deleteAboveWatermark).2.outcome =
      RunOutcome.completed ∧
    secondActions defaultCollector 100 deleteAboveWatermark = ([], [], [1]) :=
  ⟨rfl, rfl⟩

/-! ## Batch composition under `max_count` (claim C4) -/

theorem mem_truncateBatch (mc : Option Nat) (l : List Nat) (p : Nat)
    (h : p ∈ truncateBatch mc l) : p ∈ l := by
  rcases mc with _ | n
  · exact h
  · by_cases hn : n = 0
    · simpa [truncateBatch, hn] using h
    · exact List.take_subset n l (by simpa [truncateBatch, hn] using h)

/-- The two batches `analyze` hands to the pipelines, as functions of the
reconciliation triple: delete batch = `update_pks + delete_pks`, add batch =
`add_pks + update_pks`, each truncated by `max_count` after concatenation. -/
theorem analyze_report (c : Collector) (nowT : Int) (st st1 : RunState)
    (tr : Tracker) (hlock : lock c nowT st = Except.ok (st1, tr)) :
    (analyze c nowT st).2.add_batch = truncateBatch c.max_count
      ((get_actions c st1.db.history st1.db.ledger tr.last_updated).1 ++
       (get_actions c st1.db.history st1.db.ledger tr.last_updated).2.1) ∧
    (analyze c nowT st).2.delete_batch = truncateBatch c.max_count
      ((get_actions c st1.db.history st1.db.ledger tr.last_updated).2.1 ++
       (get_actions c st1.db.history st1.db.ledger tr.last_updated).2.2) := by
  unfold analyze
  rw [hlock]
  dsimp only
  split
  · exact ⟨rfl, rfl⟩
  · split
    · exact ⟨rfl, rfl⟩
    · exact ⟨rfl, rfl⟩

/-- C4 (amended): the delete batch of a run is `update_ids ∪ delete_ids` and
the add batch is `add_ids ∪ update_ids`; a positive `max_count` truncates
each batch independently after the union (so every batch element still comes
from the union, and each batch has at most `max_count` elements).  The
deferred add of the `max_count = 1` scenario is *not* guaranteed to be picked
up by the next run (see the counterexample); it is only left out of the
ledger. -/
theorem C4_batches (c : Collector) (nowT : Int) (st st1 : RunState)
    (tr : Tracker) (hlock : lock c nowT st = Except.ok (st1, tr)) :
    (c.max_count = none →
      (∀ p, p ∈ (analyze c nowT st).2.delete_batch ↔
        (p ∈ (get_actions c st1.db.history st1.db.ledger tr.last_updated).2.1 ∨
         p ∈ (get_actions c st1.db.history st1.db.ledger tr.last_updated).2.2)) ∧
      (∀ p, p ∈ (analyze c nowT st).2.add_batch ↔
        (p ∈ (get_actions c st1.db.history st1.db.ledger tr.last_updated).1 ∨
         p ∈ (get_actions c st1.db.history st1.db.ledger tr.last_updated).2.1))) ∧
    (∀ k, c.max_count = some k → 0 < k →
      (analyze c nowT st).2.delete_batch.length ≤ k ∧
      (analyze c nowT st).2.add_batch.length ≤ k) ∧
    (∀ p, p ∈ (analyze c nowT st).2.delete_batch →
      (p ∈ (get_actions c st1.db.history st1.db.ledger tr.last_updated).2.1 ∨
       p ∈ (get_actions c st1.db.history st1.db.ledger tr.last_updated).2.2)) ∧
    (∀ p, p ∈ (analyze c nowT st).2.add_batch →
      (p ∈ (get_actions c st1.db.history st1.db.ledger tr.last_updated).1 ∨
       p ∈ (get_actions c st1.db.history st1.db.ledger tr.last_updated).2.1)) := by
  obtain ⟨hadd, hdel⟩ := analyze_report c nowT st st1 tr hlock
  refine ⟨fun hmc => ?_, fun k hk hkpos => ?_, fun p hp => ?_, fun p hp => ?_⟩
  · rw [hadd, hdel, hmc]
    exact ⟨fun p => List.mem_append, fun p => List.mem_append⟩
  · rw [hadd, hdel, hk]
    simp only [truncateBatch]
    rw [if_neg (Nat.pos_iff_ne_zero.mp hkpos), if_neg (Nat.pos_iff_ne_zero.mp hkpos)]
    constructor <;> · rw [List.length_take]; exact min_le_left _ _
  · rw [hdel] at hp
    exact List.mem_append.mp (mem_truncateBatch _ _ _ hp)
  · rw [hadd] at hp
    exact List.mem_append.mp (mem_truncateBatch _ _ _ hp)

/-- C4 witness: at the capped two-adds scenario, the add batch of the run is
bounded by `max_count = 1`. -/
theorem C4_batches_witness :
    (analyze cappedCollector 100 twoAddsNewerFirst).2.delete_batch.length ≤ 1 ∧
    (analyze cappedCollector 100 twoAddsNewerFirst).2.add_batch.length ≤ 1 :=
  (C4_batches cappedCollector 100 twoAddsNewerFirst
      ⟨⟨[⟨1, 10, "~"⟩, ⟨2, 5, "~"⟩], [1, 2], some ⟨0, 0⟩, []⟩, ⟨[], []⟩, true⟩
      ⟨0, 0⟩ rfl).2.1 1 rfl (by decide)

/-! ## Support lemmas towards idempotence (claim C3) -/

/-- The timestamp `add_items` stores in the ledger for an id: its aggregate
`historical_last_change_date` (0 is the unreachable no-history default). -/
def lastChangeF (history : List HistoryRecord) (i : Nat) : Int :=
  match get_historical_attributes history i with
  | some a => a.historical_last_change_date
  | none => 0

theorem upsert_mem_self (l : List (Nat × Int)) (p : Nat) (v : Int) :
    (p, v) ∈ upsert l p v := by
  unfold upsert
  by_cases h : l.any (fun e => e.1 = p) = true
  · rw [if_pos h]
    obtain ⟨e, he, hep⟩ := List.any_eq_true.mp h
    exact List.mem_map.mpr ⟨e, he, by rw [if_pos (of_decide_eq_true hep)]⟩
  · rw [if_neg h]
    exact List.mem_append_right _ (List.mem_singleton.mpr rfl)

theorem upsert_mem_of_ne (l : List (Nat × Int)) (p : Nat) (v : Int)
    (q : Nat) (w : Int) (h : (q, w) ∈ l) (hq : q ≠ p) : (q, w) ∈ upsert l p v := by
  unfold upsert
  by_cases ha : l.any (fun e => e.1 = p) = true
  · rw [if_pos ha]
    exact List.mem_map.mpr ⟨(q, w), h, by rw [if_neg hq]⟩
  · rw [if_neg ha]
    exact List.mem_append_left _ h

theorem ledgerMax_cons (e : Nat × Int) (l : List (Nat × Int)) :
    ledgerMax (e :: l) = some ((l.map (fun x => x.2)).foldl max e.2) := rfl

theorem ledgerMax_isSome (l : List (Nat × Int)) (h : l ≠ []) :
    ∃ m, ledgerMax l = some m := by
  rcases l with _ | ⟨x, xs⟩
  · exact absurd rfl h
  · exact ⟨_, ledgerMax_cons x xs⟩

theorem le_ledgerMax (l : List (Nat × Int)) (e : Nat × Int) (m : Int)
    (he : e ∈ l) (hm : ledgerMax l = some m) : e.2 ≤ m := by
  rcases l with _ | ⟨x, xs⟩
  · cases he
  · rw [ledgerMax_cons] at hm
    injection hm with hm
    rw [← hm]
    rcases List.mem_cons.mp he with rfl | he
    · exact le_foldl_max _ _
    · exact mem_le_foldl_max _ _ _ (List.mem_map.mpr ⟨e, he, rfl⟩)

theorem itemPk_itemOf (history : List HistoryRecord) (i : Nat) :
    itemPk (itemOf history i) = i := rfl

theorem itemTimestamp_itemOf (history : List HistoryRecord) (i : Nat)
    (a : HistAttrs) (h : get_historical_attributes history i = some a) :
    itemTimestamp (itemOf history i) = some a.historical_last_change_date := by
  unfold itemOf
  rw [h]
  rfl

theorem lastChangeF_eq (history : List HistoryRecord) (i : Nat) (a : HistAttrs)
    (h : get_historical_attributes history i = some a) :
    lastChangeF history i = a.historical_last_change_date := by
  unfold lastChangeF
  rw [h]

/-- Every change id of a detection window names at least one record. -/
theorem mem_changePksOf_exists (history : List HistoryRecord) (L : Int)
    (p : Nat) (h : p ∈ changePksOf history L) :
    ∃ r ∈ history, r.id = p := by
  obtain ⟨r, hr, hrp⟩ := List.mem_map.mp (List.mem_dedup.mp h)
  exact ⟨r, (List.mem_filter.mp (List.mem_filter.mp hr).1).1, hrp⟩

/-- With no deletes detected, every non-delete record of the window
contributes its id to the change ids. -/
theorem mem_changePksOf_of (history : List HistoryRecord) (L : Int)
    (r : HistoryRecord) (hr : r ∈ history) (hL : L < r.history_date)
    (ht : r.history_type ≠ "-") (hdel : deletePksOf history L = []) :
    r.id ∈ changePksOf history L := by
  refine List.mem_dedup.mpr (List.mem_map.mpr ⟨r, ?_, rfl⟩)
  refine List.mem_filter.mpr ⟨List.mem_filter.mpr ⟨hr, by simpa using hL⟩, ?_⟩
  simp [ht, hdel]

/-- If nothing in the window carries the delete tag, no delete ids are
detected. -/
theorem deletePksOf_nil (history : List HistoryRecord) (L : Int)
    (h1 : ∀ r ∈ history, L < r.history_date → r.history_type ≠ "-") :
    deletePksOf history L = [] := by
  unfold deletePksOf
  rw [List.filter_eq_nil_iff.mpr (fun r hr => ?_)]
  · rfl
  · obtain ⟨hrh, hrL⟩ := List.mem_filter.mp hr
    simpa using h1 r hrh (by simpa using hrL)

/-- Each id with at least one record has an aggregate row. -/
theorem attrs_some (history : List HistoryRecord) (p : Nat)
    (h : ∃ r ∈ history, r.id = p) :
    ∃ a, get_historical_attributes history p = some a := by
  obtain ⟨r, hr, hrp⟩ := h
  have hmem : r ∈ history.filter (fun r => r.id = p) :=
    List.mem_filter.mpr ⟨hr, by simpa using hrp⟩
  rcases hl : history.filter (fun r => r.id = p) with _ | ⟨x, xs⟩
  · rw [hl] at hmem; cases hmem
  · exact ⟨_, get_historical_attributes_eq history p x xs hl⟩

/-- Every record's timestamp is bounded by its id's aggregate
`historical_last_change_date`. -/
theorem le_lastChangeF (history : List HistoryRecord) (q : Nat)
    (r : HistoryRecord) (hr : r ∈ history) (hid : r.id = q) :
    r.history_date ≤ lastChangeF history q := by
  have hmem : r ∈ history.filter (fun r => r.id = q) :=
    List.mem_filter.mpr ⟨hr, by simpa using hid⟩
  rcases hl : history.filter (fun r => r.id = q) with _ | ⟨x, xs⟩
  · rw [hl] at hmem; cases hmem
  · rw [lastChangeF_eq history q _ (get_historical_attributes_eq history q x xs hl)]
    rw [hl] at hmem
    rcases List.mem_cons.mp hmem with rfl | hmem
    · exact le_foldl_max _ _
    · exact mem_le_foldl_max _ _ _ (List.mem_map.mpr ⟨r, hmem, rfl⟩)

/-- The `add_pks` of a default-configured collector are exactly the detected
change ids: the subtraction of `self.update_pks` removes nothing. -/
theorem add_pks_of_default (history : List HistoryRecord) (L : Int) :
    add_pks_of defaultCollector history L = changePksOf history L := by
  unfold add_pks_of
  rw [List.filter_eq_self.mpr (fun a _ => by simp [defaultCollector])]

/-- Every member of `update_pks` is a detected change id. -/
theorem mem_update_pks_of (history : List HistoryRecord)
    (ledger : List (Nat × Int)) (L : Int) (p : Nat)
    (h : p ∈ update_pks_of history ledger L) : p ∈ changePksOf history L := by
  have := (List.mem_filter.mp (List.mem_dedup.mp h)).2
  simpa using this

/-- Evaluation of one loop iteration when the item has its timestamp field. -/
theorem add_one_eq (c : Collector) (st : RunState)
    (item : List (String × Value)) (t : Int) (ht : itemTimestamp item = some t) :
    add_one c st item = some
      ⟨⟨st.db.history, st.db.current, st.db.tracker,
        upsert st.db.ledger (itemPk item) t⟩,
       if c.use_file then
         ⟨[dump_result [] "historical_last_change_date" item], st.sink.stdout⟩
       else
         ⟨st.sink.file,
          st.sink.stdout ++ [dump_result [] "historical_last_change_date" item]⟩,
       st.locked⟩ := by
  unfold add_one
  rw [ht]

/-- Running the `add_items` loop on items that all carry a timestamp
`f (their pk)` succeeds, touches only ledger and sink, keeps every ledger
pair of the form `(p, f p)` and ends with `(pk, f pk)` present for every
processed item. -/
theorem add_items_loop_spec (c : Collector) (f : Nat → Int) :
    ∀ (items : List (List (String × Value))) (st : RunState),
      (∀ item ∈ items, itemTimestamp item = some (f (itemPk item))) →
      ∃ st2, add_items_loop c st items = some st2 ∧
        st2.db.history = st.db.history ∧
        st2.db.current = st.db.current ∧
        st2.db.tracker = st.db.tracker ∧
        (∀ p, (p, f p) ∈ st.db.ledger → (p, f p) ∈ st2.db.ledger) ∧
        (∀ item ∈ items, (itemPk item, f (itemPk item)) ∈ st2.db.ledger) := by
  intro items
  induction items with
  | nil =>
    intro st _
    exact ⟨st, rfl, rfl, rfl, rfl, fun p h => h,
      fun item h => absurd h (List.not_mem_nil item)⟩
  | cons item rest ih =>
    intro st hts
    have hone := add_one_eq c st item (f (itemPk item))
      (hts item (List.mem_cons_self _ _))
    obtain ⟨st2, hloop, hh, hc, htr, hpres, hitems⟩ :=
      ih ⟨⟨st.db.history, st.db.current, st.db.tracker,
            upsert st.db.ledger (itemPk item) (f (itemPk item))⟩,
          if c.use_file then
            ⟨[dump_result [] "historical_last_change_date" item], st.sink.stdout⟩
          else
            ⟨st.sink.file,
             st.sink.stdout ++ [dump_result [] "historical_last_change_date" item]⟩,
          st.locked⟩
        (fun it hit => hts it (List.mem_cons_of_mem _ hit))
    refine ⟨st2, ?_, hh, hc, htr, ?_, ?_⟩
    · show add_items_loop c st (item :: rest) = some st2
      unfold add_items_loop
      rw [hone]
      exact hloop
    · intro p hp
      apply hpres p
      show (p, f p) ∈ upsert st.db.ledger (itemPk item) (f (itemPk item))
      by_cases hpq : p = itemPk item
      · subst hpq; exact upsert_mem_self _ _ _
      · exact upsert_mem_of_ne _ _ _ _ _ hp hpq
    · intro it hit
      rcases List.mem_cons.mp hit with rfl | hit
      · exact hpres _ (upsert_mem_self _ _ _)
      · exact hitems it hit

/-- Evaluation of `unlock` on a locked state with a nonempty ledger. -/
theorem unlock_eq (st : RunState) (t : Tracker) (m : Int)
    (htr : st.db.tracker = some t) (hm : ledgerMax st.db.ledger = some m) :
    unlock st = some
      ⟨⟨st.db.history, st.db.current, some ⟨m, 0⟩, st.db.ledger⟩,
       st.sink, false⟩ := by
  unfold unlock
  rw [htr, hm]

/-- Full evaluation of a successful `analyze` run from its three phases. -/
theorem analyze_eq_of (c : Collector) (nowT : Int) (st st1 : RunState)
    (tr : Tracker) (st2 st3 : RunState)
    (hlock : lock c nowT st = Except.ok (st1, tr))
    (hadd : add_items c st1 (truncateBatch c.max_count
      ((get_actions c st1.db.history st1.db.ledger tr.last_updated).1 ++
       (get_actions c st1.db.history st1.db.ledger tr.last_updated).2.1)) =
        some st2)
    (hunlock : unlock st2 = some st3) :
    analyze c nowT st = (st3, ⟨RunOutcome.completed,
      truncateBatch c.max_count
        ((get_actions c st1.db.history st1.db.ledger tr.last_updated).1 ++
         (get_actions c st1.db.history st1.db.ledger tr.last_updated).2.1),
      truncateBatch c.max_count
        ((get_actions c st1.db.history st1.db.ledger tr.last_updated).2.1 ++
         (get_actions c st1.db.history st1.db.ledger tr.last_updated).2.2)⟩) := by
  unfold analyze
  rw [hlock]
  dsimp only
  rw [hadd]
  dsimp only
  rw [hunlock]

/-- When the detection window is empty, all three action sets are empty. -/
theorem get_actions_empty_of_window (c : Collector)
    (history : List HistoryRecord) (ledger : List (Nat × Int)) (m : Int)
    (hwin : windowOf history m = []) :
    get_actions c history ledger m = ([], [], []) := by
  have hdel : deletePksOf history m = [] := by
    unfold deletePksOf
    rw [hwin]
    rfl
  have hch : changePksOf history m = [] := by
    unfold changePksOf
    rw [hwin]
    rfl
  unfold get_actions add_pks_of update_pks_of delete_pks_of
  rw [hdel, hch]
  simp

/-- C3 (amended): for every store and ledger state, if the first run's
detection window contains at least one version record, none of them carries
the delete tag, and every id changed in the window still exists in the live
table, then the first default-configured `analyze` pass completes and running
detect + reconcile again — with no new version records — yields empty add,
update and delete sets.  (Unrestricted the claim fails: see the
counterexample, where a Delete record newer than the released watermark is
re-detected.) -/
theorem C3_idempotent (history : List HistoryRecord) (current : List Nat)
    (ledger0 : List (Nat × Int)) (L0 s0 : Int) (sink0 : Sink) (lk0 : Bool)
    (nowT : Int)
    (h1 : ∀ r ∈ history, L0 < r.history_date → r.history_type ≠ "-")
    (h2 : ∃ r ∈ history, L0 < r.history_date)
    (h3 : ∀ r ∈ history, L0 < r.history_date → r.id ∈ current) :
    (analyze defaultCollector nowT
        ⟨⟨history, current, some ⟨L0, s0⟩, ledger0⟩, sink0, lk0⟩).2.outcome =
      RunOutcome.completed ∧
    secondActions defaultCollector nowT
        ⟨⟨history, current, some ⟨L0, s0⟩, ledger0⟩, sink0, lk0⟩ =
      ([], [], []) := by
  have hlock : lock defaultCollector nowT
      ⟨⟨history, current, some ⟨L0, s0⟩, ledger0⟩, sink0, lk0⟩ =
      Except.ok (⟨⟨history, current, some ⟨L0, 0⟩, ledger0⟩, sink0, true⟩,
        (⟨L0, 0⟩ : Tracker)) := by
    simp [lock, defaultCollector]
  have hdelnil : deletePksOf history L0 = [] := deletePksOf_nil history L0 h1
  have hbatch_sub : ∀ p, p ∈ add_pks_of defaultCollector history L0 ++
      update_pks_of history ledger0 L0 → p ∈ changePksOf history L0 := by
    intro p hp
    rcases List.mem_append.mp hp with hp | hp
    · rw [add_pks_of_default] at hp; exact hp
    · exact mem_update_pks_of history ledger0 L0 p hp
  have hitems_ts : ∀ item ∈ (current.filter
        (fun i => i ∈ add_pks_of defaultCollector history L0 ++
          update_pks_of history ledger0 L0)).map (itemOf history),
      itemTimestamp item = some (lastChangeF history (itemPk item)) := by
    intro item hitem
    obtain ⟨p, hp, rfl⟩ := List.mem_map.mp hitem
    have hpb : p ∈ add_pks_of defaultCollector history L0 ++
        update_pks_of history ledger0 L0 := by
      have := (List.mem_filter.mp hp).2
      simpa using this
    obtain ⟨a, ha⟩ := attrs_some history p
      (mem_changePksOf_exists history L0 p (hbatch_sub p hpb))
    rw [itemPk_itemOf, itemTimestamp_itemOf history p a ha,
      lastChangeF_eq history p a ha]
  obtain ⟨st2, hloop, hh2, hc2, htr2, hpres2, hitems2⟩ :=
    add_items_loop_spec defaultCollector (lastChangeF history)
      ((current.filter
        (fun i => i ∈ add_pks_of defaultCollector history L0 ++
          update_pks_of history ledger0 L0)).map (itemOf history))
      ⟨⟨history, current, some ⟨L0, 0⟩, ledger0⟩, sink0, true⟩ hitems_ts
  have hadd : add_items defaultCollector
      ⟨⟨history, current, some ⟨L0, 0⟩, ledger0⟩, sink0, true⟩
      (add_pks_of defaultCollector history L0 ++
        update_pks_of history ledger0 L0) = some st2 := hloop
  have hled : ∀ p, p ∈ current →
      p ∈ add_pks_of defaultCollector history L0 ++
        update_pks_of history ledger0 L0 →
      (p, lastChangeF history p) ∈ st2.db.ledger := by
    intro p hpc hpb
    have hmm : itemOf history p ∈ (current.filter
        (fun i => i ∈ add_pks_of defaultCollector history L0 ++
          update_pks_of history ledger0 L0)).map (itemOf history) :=
      List.mem_map.mpr ⟨p, List.mem_filter.mpr ⟨hpc, by simpa using hpb⟩, rfl⟩
    have h := hitems2 _ hmm
    rwa [itemPk_itemOf] at h
  obtain ⟨r0, hr0, hL0r0⟩ := h2
  have hch0 : r0.id ∈ changePksOf history L0 :=
    mem_changePksOf_of history L0 r0 hr0 hL0r0 (h1 r0 hr0 hL0r0) hdelnil
  have hb0 : r0.id ∈ add_pks_of defaultCollector history L0 ++
      update_pks_of history ledger0 L0 :=
    List.mem_append_left _ (by rw [add_pks_of_default]; exact hch0)
  have hmem0 : (r0.id, lastChangeF history r0.id) ∈ st2.db.ledger :=
    hled r0.id (h3 r0 hr0 hL0r0) hb0
  obtain ⟨m, hm⟩ := ledgerMax_isSome st2.db.ledger (List.ne_nil_of_mem hmem0)
  have hLm : L0 < m :=
    lt_of_lt_of_le
      (lt_of_lt_of_le hL0r0 (le_lastChangeF history r0.id r0 hr0 rfl))
      (le_ledgerMax st2.db.ledger _ m hmem0 hm)
  have htr2' : st2.db.tracker = some (⟨L0, 0⟩ : Tracker) := htr2
  have hunlock := unlock_eq st2 ⟨L0, 0⟩ m htr2' hm
  have hana := analyze_eq_of defaultCollector nowT
    ⟨⟨history, current, some ⟨L0, s0⟩, ledger0⟩, sink0, lk0⟩
    ⟨⟨history, current, some ⟨L0, 0⟩, ledger0⟩, sink0, true⟩
    ⟨L0, 0⟩ st2
    ⟨⟨st2.db.history, st2.db.current, some ⟨m, 0⟩, st2.db.ledger⟩, st2.sink,
      false⟩
    hlock hadd hunlock
  have hwin : windowOf history m = [] := by
    unfold windowOf
    apply List.filter_eq_nil_iff.mpr
    intro r hr
    simp only [decide_eq_true_eq, not_lt]
    by_cases hL : L0 < r.history_date
    · have hch : r.id ∈ changePksOf history L0 :=
        mem_changePksOf_of history L0 r hr hL (h1 r hr hL) hdelnil
      have hb : r.id ∈ add_pks_of defaultCollector history L0 ++
          update_pks_of history ledger0 L0 :=
        List.mem_append_left _ (by rw [add_pks_of_default]; exact hch)
      have hmem : (r.id, lastChangeF history r.id) ∈ st2.db.ledger :=
        hled r.id (h3 r hr hL) hb
      exact le_trans (le_lastChangeF history r.id r hr rfl)
        (le_ledgerMax st2.db.ledger _ m hmem hm)
    · exact le_trans (not_lt.mp hL) (le_of_lt hLm)
  have hwin2 : windowOf st2.db.history m = [] := by
    rw [hh2]; exact hwin
  constructor
  · rw [hana]
  · unfold secondActions
    rw [hana]
    dsimp only
    exact get_actions_empty_of_window defaultCollector st2.db.history
      st2.db.ledger m hwin2

/-- C3 witness: one change record above the watermark, its entity live and
unprocessed. -/
theorem C3_idempotent_witness :
    (analyze defaultCollector 100
        ⟨⟨[⟨1, 5, "~"⟩], [1], some ⟨0, 1⟩, []⟩, ⟨[], []⟩, false⟩).2.outcome =
      RunOutcome.completed ∧
    secondActions defaultCollector 100
        ⟨⟨[⟨1, 5, "~"⟩], [1], some ⟨0, 1⟩, []⟩, ⟨[], []⟩, false⟩ =
      ([], [], []) :=
  C3_idempotent [⟨1, 5, "~"⟩] [1] [] 0 1 ⟨[], []⟩ false 100
    (by decide) (by decide) (by decide)

end DjangoSplunkAnalytics
